import Mathlib

/-!
Shallow embedding of the particle-system core of `movement-particles`
(crates/particle-core): `particles.rs` (Particle, ParticleConfig, Emitter,
ParticleSystem), `collision.rs` (AABB, LineSegment, Outline, SpatialGrid)
and `physics.rs` (Force::calculate_at).

Modelling conventions:
* `f32` values are embedded as exact rationals (`ℚ`) wherever the code uses
  only field operations, `floor`/`ceil` and comparisons; the attractor /
  repulsor force formulas need a square root (vector normalization), so that
  part of `physics.rs` is embedded over `ℝ`.
* The ambient random number generator used by `Emitter::emit` is made
  explicit: the source draws, per spawned particle, a random angle mapped
  through `cos`/`sin` at the emitter's `initial_velocity` magnitude, and a
  random RGBA color.  The embedding abstracts those draws as an explicit
  stream `draw : ℕ → EmitSample` supplying the k-th spawned particle's
  initial velocity vector and color; the claims under verification quantify
  over all random outcomes, so nothing is lost.
* Rust's saturating float-to-`usize` cast (`.floor() as usize`) is embedded
  as `Int.toNat` of the rational floor (saturation at `usize::MAX` is not
  reachable in any claim and is not modelled).
-/

/-- 2D vector with exact rational components (embeds `glam::Vec2` as used by
`particles.rs` and `collision.rs`). -/
structure Vec2Q where
  x : ℚ
  y : ℚ
deriving DecidableEq, Inhabited

namespace Vec2Q

instance : Zero Vec2Q := ⟨⟨0, 0⟩⟩

instance : Add Vec2Q := ⟨fun a b => ⟨a.x + b.x, a.y + b.y⟩⟩

instance : Sub Vec2Q := ⟨fun a b => ⟨a.x - b.x, a.y - b.y⟩⟩

instance : Neg Vec2Q := ⟨fun a => ⟨-a.x, -a.y⟩⟩

/-- `v * c` — scalar multiplication on the right, as `glam` writes it. -/
instance : HMul Vec2Q ℚ Vec2Q := ⟨fun v c => ⟨v.x * c, v.y * c⟩⟩

/-- `v / c` — componentwise division by a scalar (`force / mass` in
`Particle::update`). -/
instance : HDiv Vec2Q ℚ Vec2Q := ⟨fun v c => ⟨v.x / c, v.y / c⟩⟩

/-- Componentwise minimum (`glam::Vec2::min`). -/
def min (a b : Vec2Q) : Vec2Q := ⟨Min.min a.x b.x, Min.min a.y b.y⟩

/-- Componentwise maximum (`glam::Vec2::max`). -/
def max (a b : Vec2Q) : Vec2Q := ⟨Max.max a.x b.x, Max.max a.y b.y⟩

/-- Squared euclidean distance between two points; used to state
"distance ≤ radius" exactly in ℚ (as `distSq p q ≤ radius ^ 2`). -/
def distSq (a b : Vec2Q) : ℚ := (a.x - b.x) ^ 2 + (a.y - b.y) ^ 2

@[simp] theorem add_x (a b : Vec2Q) : (a + b).x = a.x + b.x := rfl

@[simp] theorem add_y (a b : Vec2Q) : (a + b).y = a.y + b.y := rfl

@[simp] theorem mul_x (v : Vec2Q) (c : ℚ) : (v * c).x = v.x * c := rfl

@[simp] theorem mul_y (v : Vec2Q) (c : ℚ) : (v * c).y = v.y * c := rfl

end Vec2Q

/-- RGBA color as four exact rationals. -/
abbrev ColorQ := ℚ × ℚ × ℚ × ℚ

/-- `Particle` (particles.rs lines 7–24).  The two-float alignment padding
field carries no semantic content and is omitted; all other fields are kept. -/
structure Particle where
  position : Vec2Q
  velocity : Vec2Q
  life : ℚ
  size : ℚ
  color : ColorQ
  mass : ℚ
deriving DecidableEq, Inhabited

namespace Particle

/-- `Particle::new` — mass is fixed at 1. -/
def new (position velocity : Vec2Q) (life size : ℚ) (color : ColorQ) : Particle :=
  { position := position, velocity := velocity, life := life, size := size,
    color := color, mass := 1 }

/-- `Particle::update(dt, forces)`.  A force is embedded as its (pure)
field `calculate_at : position → vector`; the loop
`acceleration += force.calculate_at(pos) / self.mass` becomes a fold.
Then semi-implicit Euler, the hard-coded `vel *= 0.99` drag, and
`life -= dt`, exactly as in the source. -/
def update (p : Particle) (dt : ℚ) (forces : List (Vec2Q → Vec2Q)) : Particle :=
  let pos := p.position
  let vel := p.velocity
  let acceleration := forces.foldl (fun (a : Vec2Q) f => a + f pos / p.mass) (0 : Vec2Q)
  let vel2 := vel + acceleration * dt
  let new_pos := pos + vel2 * dt
  let vel3 := vel2 * (99 / 100 : ℚ)
  { p with position := new_pos, velocity := vel3, life := p.life - dt }

/-- `Particle::is_alive` — `life > 0.0`. -/
def is_alive (p : Particle) : Bool := 0 < p.life

end Particle

/-- `ParticleConfig` (particles.rs lines 82–89). -/
structure ParticleConfig where
  max_particles : ℕ
  spawn_rate : ℚ
  particle_lifetime : ℚ
  particle_size : ℚ
  gravity : Vec2Q
  drag_coefficient : ℚ
deriving DecidableEq

/-- `ParticleConfig::default()`. -/
def ParticleConfig.default : ParticleConfig :=
  { max_particles := 10000, spawn_rate := 500, particle_lifetime := 5,
    particle_size := 3, gravity := ⟨0, 100⟩, drag_coefficient := 99 / 100 }

/-- One random outcome consumed per spawned particle: the initial velocity
vector (the source draws an angle in `[-spread, spread]` and takes
`(cos θ, sin θ) * initial_velocity`) and the RGBA color (the source draws
R,G ∈ [0.5,1), B ∈ [0.8,1), A = 1). -/
structure EmitSample where
  vel : Vec2Q
  color : ColorQ
deriving DecidableEq, Inhabited

/-- `Emitter` (particles.rs lines 106–115). -/
structure Emitter where
  position : Vec2Q
  rate : ℚ
  spread : ℚ
  initial_velocity : ℚ
  particle_lifetime : ℚ
  particle_size : ℚ
  enabled : Bool
  accumulator : ℚ
deriving DecidableEq

namespace Emitter

/-- `Emitter::new(position)` (the source's `spread` default is π/4; the
spread only parametrizes the random angle draw, which this embedding
abstracts, so the irrational default is embedded as an arbitrary stand-in
rational). -/
def new (position : Vec2Q) : Emitter :=
  { position := position, rate := 100, spread := 785 / 1000,
    initial_velocity := 50, particle_lifetime := 5, particle_size := 3,
    enabled := true, accumulator := 0 }

/-- `Emitter::emit(dt)` (particles.rs lines 133–169).  Returns the updated
emitter (the source mutates `self.accumulator`) together with the list of
spawned particles.  `draw k` supplies the k-th particle's random velocity
and color. -/
def emit (e : Emitter) (dt : ℚ) (draw : ℕ → EmitSample) : Emitter × List Particle :=
  if e.enabled then
    let acc := e.accumulator + dt * e.rate
    let count := (⌊acc⌋).toNat
    let acc2 := acc - (count : ℚ)
    ({ e with accumulator := acc2 },
      (List.range count).map fun k =>
        Particle.new e.position (draw k).vel e.particle_lifetime e.particle_size
          (draw k).color)
  else
    (e, [])

end Emitter

/-- `ParticleSystem` (particles.rs lines 173–177). -/
structure ParticleSystem where
  particles : List Particle
  emitters : List Emitter
  config : ParticleConfig

namespace ParticleSystem

/-- `ParticleSystem::new()`. -/
def new : ParticleSystem :=
  { particles := [], emitters := [], config := ParticleConfig.default }

/-- The inner append loop of `ParticleSystem::update`:
`for particle in new_particles { if self.particles.len() < self.config.max_particles { self.particles.push(particle); } }`. -/
def pushCapped (maxP : ℕ) : List Particle → List Particle → List Particle
  | acc, [] => acc
  | acc, p :: ps =>
      pushCapped maxP (if acc.length < maxP then acc ++ [p] else acc) ps

/-- The emitter loop of `ParticleSystem::update`: each emitter in order
emits (mutating its accumulator) and its particles are appended under the
capacity check.  `i` is the position of the first emitter of `es` in the
system's emitter list, so that `draws i` is that emitter's random stream. -/
def runEmitters (maxP : ℕ) (dt : ℚ) (draws : ℕ → ℕ → EmitSample) :
    List Particle → List Emitter → ℕ → List Particle × List Emitter
  | acc, [], _ => (acc, [])
  | acc, e :: es, i =>
      let r := e.emit dt (draws i)
      let rest := runEmitters maxP dt draws (pushCapped maxP acc r.2) es (i + 1)
      (rest.1, r.1 :: rest.2)

/-- `ParticleSystem::update(dt, forces)` (particles.rs lines 190–208), in
source order: integrate every particle, retain the alive ones, then run the
emitters with the capacity check. -/
def update (s : ParticleSystem) (dt : ℚ) (forces : List (Vec2Q → Vec2Q))
    (draws : ℕ → ℕ → EmitSample) : ParticleSystem :=
  let integrated := s.particles.map fun p => p.update dt forces
  let survivors := integrated.filter fun p => p.is_alive
  let r := runEmitters s.config.max_particles dt draws survivors s.emitters 0
  { particles := r.1, emitters := r.2, config := s.config }

/-- `ParticleSystem::particle_count()`. -/
def particle_count (s : ParticleSystem) : ℕ := s.particles.length

end ParticleSystem

/-- `AABB` (collision.rs lines 8–11). -/
structure AABB where
  min : Vec2Q
  max : Vec2Q
deriving DecidableEq

namespace AABB

/-- `AABB::new`. -/
def new (mn mx : Vec2Q) : AABB := ⟨mn, mx⟩

/-- `AABB::contains(point)`. -/
def contains (b : AABB) (point : Vec2Q) : Bool :=
  b.min.x ≤ point.x ∧ point.x ≤ b.max.x ∧ b.min.y ≤ point.y ∧ point.y ≤ b.max.y

end AABB

/-- `LineSegment` (collision.rs lines 35–39).  The source also stores the
segment's unit outward `normal` (computed once in `LineSegment::new` with
`normalize_or_zero`, hence a real square root); no operation verified here
ever reads it, so it is not carried in the embedding. -/
structure LineSegment where
  start : Vec2Q
  stop : Vec2Q
deriving DecidableEq

/-- `LineSegment::new(start, end)` (the `end` field is named `stop` here
because `end` is reserved in Lean). -/
def LineSegment.new (s e : Vec2Q) : LineSegment := ⟨s, e⟩

/-- `Outline` (collision.rs lines 66–70). -/
structure Outline where
  segments : List LineSegment
  bounds : AABB
  velocity : Vec2Q

namespace Outline

/-- `Outline::from_points(points)` (collision.rs lines 74–100): one segment
per consecutive point pair with wraparound, bounds as running min/max of the
points, zero velocity; an empty list gives the degenerate outline. -/
def from_points (points : List Vec2Q) : Outline :=
  match points with
  | [] => { segments := [], bounds := AABB.new 0 0, velocity := 0 }
  | p0 :: _ =>
      let n := points.length
      let segments := (List.range n).map fun i =>
        LineSegment.new (points.getD i 0) (points.getD ((i + 1) % n) 0)
      let mn := points.foldl Vec2Q.min p0
      let mx := points.foldl Vec2Q.max p0
      { segments := segments, bounds := AABB.new mn mx, velocity := 0 }

/-- `Outline::ray_intersects_segment` (collision.rs lines 121–137),
including the near-parallel threshold `|r × s| < 0.0001`. -/
def ray_intersects_segment (ray_start ray_end seg_start seg_end : Vec2Q) : Bool :=
  let r := ray_end - ray_start
  let s := seg_end - seg_start
  let qp := seg_start - ray_start
  let r_cross_s := r.x * s.y - r.y * s.x
  let qp_cross_r := qp.x * r.y - qp.y * r.x
  if |r_cross_s| < 1 / 10000 then
    false
  else
    let t := (qp.x * s.y - qp.y * s.x) / r_cross_s
    let u := qp_cross_r / r_cross_s
    0 ≤ t ∧ t ≤ 1 ∧ 0 ≤ u ∧ u ≤ 1

/-- `Outline::contains(point)` (collision.rs lines 103–119): bounding-box
rejection, then ray casting to `(bounds.max.x + 1, point.y)` with odd
crossing count. -/
def contains (o : Outline) (point : Vec2Q) : Bool :=
  if o.bounds.contains point then
    let ray_end : Vec2Q := ⟨o.bounds.max.x + 1, point.y⟩
    let intersections := o.segments.countP fun seg =>
      ray_intersects_segment point ray_end seg.start seg.stop
    intersections % 2 == 1
  else
    false

end Outline

/-- `SpatialGrid` (collision.rs lines 151–156).  The `HashMap` of cell
buckets is embedded as a total function defaulting to the empty bucket:
`cells.get(&c)` returning `None` and returning `Some(vec![])` are
indistinguishable to every grid operation. -/
structure SpatialGrid where
  cell_size : ℚ
  cells : ℤ × ℤ → List ℕ
  width : ℚ
  height : ℚ

namespace SpatialGrid

/-- `SpatialGrid::new(width, height, cell_size)`. -/
def new (width height cell_size : ℚ) : SpatialGrid :=
  { cell_size := cell_size, cells := fun _ => [], width := width, height := height }

/-- `SpatialGrid::get_cell(position)`: `(floor(x / cell_size), floor(y / cell_size))`. -/
def get_cell (g : SpatialGrid) (position : Vec2Q) : ℤ × ℤ :=
  (⌊position.x / g.cell_size⌋, ⌊position.y / g.cell_size⌋)

/-- `SpatialGrid::insert(particle_idx, position)`: push the index onto the
cell's bucket (creating it if absent). -/
def insert (g : SpatialGrid) (particle_idx : ℕ) (position : Vec2Q) : SpatialGrid :=
  let c := g.get_cell position
  { g with cells := fun c2 => if c2 = c then g.cells c2 ++ [particle_idx] else g.cells c2 }

/-- The inclusive integer range `lo..=hi` of a Rust `for` loop, in iteration
order (empty when `hi < lo`). -/
def intRangeIncl (lo hi : ℤ) : List ℤ :=
  (List.range (hi + 1 - lo).toNat).map fun (k : ℕ) => lo + (k : ℤ)

/-- `SpatialGrid::query_nearby(position, radius)` (collision.rs lines
180–195): cell search radius `ceil(radius / cell_size)`, collect every
bucket in the square neighborhood of the center cell. -/
def query_nearby (g : SpatialGrid) (position : Vec2Q) (radius : ℚ) : List ℕ :=
  let cell_radius := ⌈radius / g.cell_size⌉
  let center_cell := g.get_cell position
  (intRangeIncl (-cell_radius) cell_radius).flatMap fun dy =>
    (intRangeIncl (-cell_radius) cell_radius).flatMap fun dx =>
      g.cells (center_cell.1 + dx, center_cell.2 + dy)

/-- A grid populated by a sequence of `insert` calls starting from `new`. -/
def build (width height cell_size : ℚ) (pairs : List (ℕ × Vec2Q)) : SpatialGrid :=
  pairs.foldl (fun g ip => g.insert ip.1 ip.2) (new width height cell_size)

end SpatialGrid

/-- 2D vector with real components, for the part of `physics.rs` whose
formulas involve a square root (vector normalization). -/
structure Vec2R where
  x : ℝ
  y : ℝ

namespace Vec2R

instance : Zero Vec2R := ⟨⟨0, 0⟩⟩

instance : Add Vec2R := ⟨fun a b => ⟨a.x + b.x, a.y + b.y⟩⟩

instance : Sub Vec2R := ⟨fun a b => ⟨a.x - b.x, a.y - b.y⟩⟩

/-- `v * c` — scalar multiplication on the right. -/
instance : HMul Vec2R ℝ Vec2R := ⟨fun v c => ⟨v.x * c, v.y * c⟩⟩

/-- `glam::Vec2::length_squared`. -/
def lengthSq (v : Vec2R) : ℝ := v.x ^ 2 + v.y ^ 2

/-- `glam::Vec2::length`. -/
noncomputable def length (v : Vec2R) : ℝ := Real.sqrt v.lengthSq

/-- `glam::Vec2::normalize_or_zero`: `v / ‖v‖` for nonzero `v`, the zero
vector otherwise. -/
noncomputable def normalize_or_zero (v : Vec2R) : Vec2R :=
  if v.length = 0 then 0 else v * (1 / v.length)

/-- Euclidean distance between two points. -/
noncomputable def dist (a b : Vec2R) : ℝ := (a - b).length

end Vec2R

/-- `Force` (physics.rs lines 7–31). -/
inductive Force where
  | Gravity (g : Vec2R)
  | Wind (direction : Vec2R) (strength turbulence : ℝ)
  | Attractor (position : Vec2R) (strength radius : ℝ)
  | Repulsor (position : Vec2R) (strength radius : ℝ)

/-- `Force::calculate_at(position)` (physics.rs lines 35–77).  The source's
`let dist = dist_sq.sqrt();` inside the attractor/repulsor arms is an unused
binding (the magnitude uses `dist_sq` directly) and is not reproduced. -/
noncomputable def Force.calculate_at : Force → Vec2R → Vec2R
  | .Gravity g, _ => g
  | .Wind direction strength turbulence, position =>
      let turbulence_offset : Vec2R :=
        ⟨Real.sin (position.x * (1 / 10)) * turbulence,
         Real.cos (position.y * (1 / 10)) * turbulence⟩
      direction.normalize_or_zero * strength + turbulence_offset
  | .Attractor pos strength radius, position =>
      let diff := pos - position
      let dist_sq := diff.lengthSq
      let radius_sq := radius * radius
      if dist_sq < radius_sq ∧ dist_sq > 0 then
        diff.normalize_or_zero * (strength / (dist_sq + 1))
      else
        0
  | .Repulsor pos strength radius, position =>
      let diff := position - pos
      let dist_sq := diff.lengthSq
      let radius_sq := radius * radius
      if dist_sq < radius_sq ∧ dist_sq > 0 then
        diff.normalize_or_zero * (strength / (dist_sq + 1))
      else
        0

/-! ### Basic vector algebra facts used by the particle theorems -/

theorem Vec2Q.zero_hmul (c : ℚ) : (0 : Vec2Q) * c = 0 := by
  show Vec2Q.mk (0 * c) (0 * c) = Vec2Q.mk 0 0
  simp

theorem Vec2Q.add_zero_vec (v : Vec2Q) : v + 0 = v := by
  cases v with
  | mk x y =>
      show Vec2Q.mk (x + 0) (y + 0) = Vec2Q.mk x y
      simp

theorem Vec2Q.hmul_one (v : Vec2Q) : v * (1 : ℚ) = v := by
  cases v with
  | mk x y =>
      show Vec2Q.mk (x * 1) (y * 1) = Vec2Q.mk x y
      simp

theorem Vec2Q.hmul_hmul (v : Vec2Q) (a b : ℚ) : v * a * b = v * (a * b) := by
  cases v with
  | mk x y =>
      show Vec2Q.mk (x * a * b) (y * a * b) = Vec2Q.mk (x * (a * b)) (y * (a * b))
      simp [mul_assoc]

/-- `Particle::update` with the empty force list: pure drift plus drag decay
and the life decrement. -/
theorem Particle.update_nil (p : Particle) (dt : ℚ) :
    p.update dt [] = { p with position := p.position + p.velocity * dt,
                              velocity := p.velocity * (99 / 100 : ℚ),
                              life := p.life - dt } := by
  unfold Particle.update
  simp [Vec2Q.zero_hmul, Vec2Q.add_zero_vec]

/-- Claim C4: with an empty force list and fixed `dt`, `n` applications of
`Particle::update` scale the velocity by `0.99^n` and decrement the life by
exactly `n * dt`. -/
theorem particle_ballistic_motion (p : Particle) (dt : ℚ) (n : ℕ) :
    ((fun q => q.update dt [])^[n] p).velocity = p.velocity * ((99 / 100 : ℚ) ^ n) ∧
    ((fun q => q.update dt [])^[n] p).life = p.life - n * dt := by
  induction n with
  | zero => simp [Vec2Q.hmul_one]
  | succ n ih =>
      obtain ⟨hv, hl⟩ := ih
      rw [Function.iterate_succ_apply', Particle.update_nil]
      constructor
      · show ((fun q => q.update dt [])^[n] p).velocity * (99 / 100 : ℚ)
            = p.velocity * ((99 / 100 : ℚ) ^ (n + 1))
        rw [hv, Vec2Q.hmul_hmul, pow_succ]
      · show ((fun q => q.update dt [])^[n] p).life - dt = p.life - (n + 1 : ℕ) * dt
        rw [hl]
        push_cast
        ring

/-- Claim C9: neither `Particle::update` (which hard-codes the 0.99 drag
factor and never reads any configuration) nor `ParticleSystem::update`
consumes `ParticleConfig.drag_coefficient`: two systems whose configurations
differ only in `drag_coefficient` produce identical particle collections
(hence identical positions, velocities and lives) and identical emitter
states after an update. -/
theorem update_independent_of_drag (s : ParticleSystem) (d dt : ℚ)
    (forces : List (Vec2Q → Vec2Q)) (draws : ℕ → ℕ → EmitSample) :
    (ParticleSystem.update
        { s with config := { s.config with drag_coefficient := d } } dt forces draws).particles
      = (s.update dt forces draws).particles ∧
    (ParticleSystem.update
        { s with config := { s.config with drag_coefficient := d } } dt forces draws).emitters
      = (s.update dt forces draws).emitters :=
  ⟨rfl, rfl⟩

/-- Claim C10: `Emitter::emit` on a disabled emitter returns the empty list
and leaves the emitter (in particular its fractional accumulator) unchanged,
so no catch-up burst can accumulate while disabled. -/
theorem emit_disabled_noop (e : Emitter) (dt : ℚ) (draw : ℕ → EmitSample)
    (h : e.enabled = false) : e.emit dt draw = (e, []) := by
  unfold Emitter.emit
  rw [h]
  simp

/-- A concrete disabled emitter with a nonzero accumulator. -/
def disabledEmitter : Emitter :=
  { position := 0, rate := 3, spread := 0, initial_velocity := 1,
    particle_lifetime := 5, particle_size := 1, enabled := false,
    accumulator := 7 / 2 }

/-- Witness for C10 at a concrete disabled emitter. -/
theorem emit_disabled_noop_witness :
    disabledEmitter.emit 1 (fun _ => default) = (disabledEmitter, []) :=
  emit_disabled_noop disabledEmitter 1 (fun _ => default) rfl

/-- A concrete enabled emitter with rate 1 and empty accumulator. -/
def spikeEmitter : Emitter :=
  { position := 0, rate := 1, spread := 0, initial_velocity := 0,
    particle_lifetime := 5, particle_size := 3, enabled := true,
    accumulator := 0 }

/-- Counterexample to claim C8 as stated: at `dt = -1` (so
`a + dt*r = -1 < 0`), the claimed spawn count `⌊a + dt*r⌋ = -1` is
impossible — the saturating `as usize` cast makes the code spawn 0
particles — and the code then subtracts 0 from the accumulator, leaving it
at `-1` instead of the claimed fractional remainder `0`. -/
theorem emit_floor_spec_refuted :
    ¬ ((((spikeEmitter.emit (-1) (fun _ => default)).2.length : ℤ)
          = ⌊spikeEmitter.accumulator + (-1) * spikeEmitter.rate⌋) ∧
        (spikeEmitter.emit (-1) (fun _ => default)).1.accumulator
          = (spikeEmitter.accumulator + (-1) * spikeEmitter.rate)
            - (⌊spikeEmitter.accumulator + (-1) * spikeEmitter.rate⌋ : ℚ)) := by
  rintro ⟨hA, -⟩
  rw [show ⌊spikeEmitter.accumulator + (-1) * spikeEmitter.rate⌋ = -1 from by
    norm_num [spikeEmitter, Int.floor_eq_iff]] at hA
  omega

/-- Claim C8 (amended): provided the post-accumulation total
`a + dt * rate` is nonnegative (always the case for nonnegative `dt` and
`rate`, since reachable accumulators stay nonnegative), an enabled emitter
spawns exactly `⌊a + dt * rate⌋` particles and keeps the fractional
remainder `a + dt * rate - ⌊a + dt * rate⌋` in its accumulator; a disabled
emitter returns the empty list (and is unchanged). -/
theorem emit_accumulator_floor (e : Emitter) (dt : ℚ) (draw : ℕ → EmitSample) :
    (e.enabled = true → 0 ≤ e.accumulator + dt * e.rate →
      (((e.emit dt draw).2.length : ℤ) = ⌊e.accumulator + dt * e.rate⌋ ∧
        (e.emit dt draw).1.accumulator
          = (e.accumulator + dt * e.rate) - (⌊e.accumulator + dt * e.rate⌋ : ℚ))) ∧
    (e.enabled = false → e.emit dt draw = (e, [])) := by
  constructor
  · intro hen hnn
    have h0 : 0 ≤ ⌊e.accumulator + dt * e.rate⌋ := Int.floor_nonneg.mpr hnn
    unfold Emitter.emit
    rw [hen]
    simp only [if_true]
    constructor
    · simp only [List.length_map, List.length_range]
      omega
    · show e.accumulator + dt * e.rate - ((⌊e.accumulator + dt * e.rate⌋.toNat : ℕ) : ℚ)
          = e.accumulator + dt * e.rate - (⌊e.accumulator + dt * e.rate⌋ : ℚ)
      congr 1
      rw [← Int.cast_natCast, Int.toNat_of_nonneg h0]
  · intro hdis
    unfold Emitter.emit
    rw [hdis]
    simp

/-- Witness for the amended C8 at `a = 0`, `rate = 1`, `dt = 3/2`:
one particle is spawned and the accumulator retains `1/2`. -/
theorem emit_accumulator_floor_witness :
    (((spikeEmitter.emit (3 / 2) (fun _ => default)).2.length : ℤ)
        = ⌊spikeEmitter.accumulator + (3 / 2) * spikeEmitter.rate⌋ ∧
      (spikeEmitter.emit (3 / 2) (fun _ => default)).1.accumulator
        = (spikeEmitter.accumulator + (3 / 2) * spikeEmitter.rate)
          - (⌊spikeEmitter.accumulator + (3 / 2) * spikeEmitter.rate⌋ : ℚ)) :=
  (emit_accumulator_floor spikeEmitter (3 / 2) (fun _ => default)).1 rfl
    (by norm_num [spikeEmitter])

/-! ### The emitter loop of `ParticleSystem::update` -/

theorem pushCapped_length_le (m : ℕ) (news : List Particle) :
    ∀ acc : List Particle, acc.length ≤ m →
      (ParticleSystem.pushCapped m acc news).length ≤ m := by
  induction news with
  | nil =>
      intro acc h
      simpa [ParticleSystem.pushCapped] using h
  | cons q qs ih =>
      intro acc h
      simp only [ParticleSystem.pushCapped]
      apply ih
      split_ifs with hc
      · simp only [List.length_append, List.length_singleton]
        omega
      · exact h

theorem runEmitters_length_le (m : ℕ) (dt : ℚ) (draws : ℕ → ℕ → EmitSample)
    (es : List Emitter) :
    ∀ acc i, acc.length ≤ m →
      (ParticleSystem.runEmitters m dt draws acc es i).1.length ≤ m := by
  induction es with
  | nil =>
      intro acc i h
      simpa [ParticleSystem.runEmitters] using h
  | cons e es ih =>
      intro acc i h
      simp only [ParticleSystem.runEmitters]
      exact ih _ _ (pushCapped_length_le m _ acc h)

theorem pushCapped_append (m : ℕ) (news : List Particle) :
    ∀ acc : List Particle, ∃ extra,
      ParticleSystem.pushCapped m acc news = acc ++ extra ∧ ∀ p ∈ extra, p ∈ news := by
  induction news with
  | nil =>
      intro acc
      exact ⟨[], by simp [ParticleSystem.pushCapped], by simp⟩
  | cons q qs ih =>
      intro acc
      by_cases hc : acc.length < m
      · obtain ⟨ex, hex, hsub⟩ := ih (acc ++ [q])
        refine ⟨q :: ex, ?_, ?_⟩
        · simp only [ParticleSystem.pushCapped, if_pos hc, hex]
          simp
        · intro p hp
          rcases List.mem_cons.mp hp with rfl | hp
          · exact List.mem_cons_self _ _
          · exact List.mem_cons_of_mem _ (hsub p hp)
      · obtain ⟨ex, hex, hsub⟩ := ih acc
        refine ⟨ex, ?_, fun p hp => List.mem_cons_of_mem _ (hsub p hp)⟩
        simp only [ParticleSystem.pushCapped, if_neg hc, hex]

/-- Every particle produced by `Emitter::emit` comes from an enabled emitter
and is exactly the freshly constructed particle of some draw. -/
theorem emit_mem (e : Emitter) (dt : ℚ) (d : ℕ → EmitSample) (p : Particle)
    (hp : p ∈ (e.emit dt d).2) :
    e.enabled = true ∧ ∃ k, p = Particle.new e.position (d k).vel
      e.particle_lifetime e.particle_size (d k).color := by
  by_cases he : e.enabled = true
  · refine ⟨he, ?_⟩
    simp only [Emitter.emit, he, if_true, List.mem_map, List.mem_range] at hp
    obtain ⟨k, -, hk⟩ := hp
    exact ⟨k, hk.symm⟩
  · simp [Emitter.emit, he] at hp

theorem runEmitters_append (m : ℕ) (dt : ℚ) (draws : ℕ → ℕ → EmitSample)
    (es : List Emitter) :
    ∀ acc i, ∃ extra,
      (ParticleSystem.runEmitters m dt draws acc es i).1 = acc ++ extra ∧
      ∀ p ∈ extra, ∃ j, ∃ hj : j < es.length,
        (es.get ⟨j, hj⟩).enabled = true ∧
        ∃ k, p = Particle.new (es.get ⟨j, hj⟩).position ((draws (i + j) k).vel)
              (es.get ⟨j, hj⟩).particle_lifetime (es.get ⟨j, hj⟩).particle_size
              ((draws (i + j) k).color) := by
  induction es with
  | nil =>
      intro acc i
      exact ⟨[], by simp [ParticleSystem.runEmitters], by simp⟩
  | cons e es ih =>
      intro acc i
      obtain ⟨ex1, hex1, h1⟩ := pushCapped_append m (e.emit dt (draws i)).2 acc
      obtain ⟨ex2, hex2, h2⟩ :=
        ih (ParticleSystem.pushCapped m acc (e.emit dt (draws i)).2) (i + 1)
      refine ⟨ex1 ++ ex2, ?_, ?_⟩
      · simp only [ParticleSystem.runEmitters]
        rw [hex2, hex1]
        simp [List.append_assoc]
      · intro p hp
        rcases List.mem_append.mp hp with hp1 | hp2
        · obtain ⟨hen, k, hpk⟩ := emit_mem e dt (draws i) p (h1 p hp1)
          exact ⟨0, by simp, hen, k, hpk⟩
        · obtain ⟨j, hj, hen, k, hpk⟩ := h2 p hp2
          refine ⟨j + 1, by simpa using hj, hen, k, ?_⟩
          have harith : i + 1 + j = i + (j + 1) := by omega
          rw [harith] at hpk
          exact hpk

/-- Claim C1: `ParticleSystem::update` preserves the capacity invariant —
starting from any state with at most `max_particles` particles, for every
`dt`, force list and random outcome, the post-update population is still at
most `max_particles` (excess spawns are discarded by the append loop's
capacity check). -/
theorem update_capacity_invariant (s : ParticleSystem) (dt : ℚ)
    (forces : List (Vec2Q → Vec2Q)) (draws : ℕ → ℕ → EmitSample)
    (h : s.particle_count ≤ s.config.max_particles) :
    (s.update dt forces draws).particle_count ≤ s.config.max_particles := by
  have hsurv : ((s.particles.map fun p => p.update dt forces).filter
      fun p => p.is_alive).length ≤ s.config.max_particles := by
    calc ((s.particles.map fun p => p.update dt forces).filter
          fun p => p.is_alive).length
        ≤ (s.particles.map fun p => p.update dt forces).length :=
          List.length_filter_le _ _
      _ = s.particles.length := List.length_map _ _
      _ ≤ s.config.max_particles := h
  exact runEmitters_length_le _ _ _ _ _ _ hsurv

/-- Witness for C1: the default (empty) system, updated once. -/
theorem update_capacity_invariant_witness :
    ParticleSystem.new.particle_count ≤ ParticleSystem.new.config.max_particles ∧
    (ParticleSystem.new.update 1 [] fun _ _ => default).particle_count
      ≤ ParticleSystem.new.config.max_particles :=
  ⟨by decide, update_capacity_invariant ParticleSystem.new 1 [] (fun _ _ => default)
    (by decide)⟩

/-- An enabled emitter configured (through its public fields) with a zero
spawned-particle lifetime. -/
def zeroLifeEmitter : Emitter :=
  { position := 0, rate := 1, spread := 0, initial_velocity := 0,
    particle_lifetime := 0, particle_size := 1, enabled := true,
    accumulator := 0 }

/-- A system holding that emitter. -/
def zeroLifeSystem : ParticleSystem :=
  { particles := [], emitters := [zeroLifeEmitter], config := ParticleConfig.default }

/-- Counterexample to claim C2 as stated: emission happens after the dead
are pruned, so an emitter whose configured `particle_lifetime` is `0` leaves
a particle with `life = 0 ≤ 0` in the collection at the end of `update`. -/
theorem update_death_invariant_refuted :
    ∃ p ∈ (zeroLifeSystem.update 1 [] fun _ _ => default).particles, p.life ≤ 0 := by
  have hfloor : ⌊(0 : ℚ) + 1 * 1⌋ = 1 := by norm_num
  simp only [ParticleSystem.update, zeroLifeSystem, zeroLifeEmitter,
    ParticleSystem.runEmitters, ParticleSystem.pushCapped, Emitter.emit,
    ParticleConfig.default, Particle.new, List.map_nil, List.filter_nil]
  norm_num [hfloor, List.range_succ, ParticleSystem.pushCapped]

/-- Claim C2 (amended): provided every enabled emitter is configured with a
positive `particle_lifetime` (as every emitter built by `Emitter::new` is),
no particle with `life ≤ 0` remains after any `update` call: survivors of
the integrate-and-prune phase are alive by the `retain` filter, and freshly
emitted particles carry their emitter's positive lifetime. -/
theorem update_death_invariant (s : ParticleSystem) (dt : ℚ)
    (forces : List (Vec2Q → Vec2Q)) (draws : ℕ → ℕ → EmitSample)
    (hem : ∀ e ∈ s.emitters, e.enabled = true → 0 < e.particle_lifetime) :
    ∀ p ∈ (s.update dt forces draws).particles, 0 < p.life := by
  intro p hp
  obtain ⟨extra, heq, hextra⟩ := runEmitters_append s.config.max_particles dt draws
    s.emitters ((s.particles.map fun p => p.update dt forces).filter
      fun p => p.is_alive) 0
  have hp' : p ∈ ((s.particles.map fun p => p.update dt forces).filter
      fun p => p.is_alive) ++ extra := by
    rw [← heq]
    exact hp
  rcases List.mem_append.mp hp' with hsurv | hext
  · have := List.of_mem_filter hsurv
    simpa [Particle.is_alive] using this
  · obtain ⟨j, hj, hen, k, hpk⟩ := hextra p hext
    have hmem : s.emitters.get ⟨j, hj⟩ ∈ s.emitters := List.get_mem _ _ _
    have := hem _ hmem hen
    rw [hpk]
    simpa [Particle.new] using this

/-- A system with one enabled emitter of positive lifetime. -/
def livelySystem : ParticleSystem :=
  { particles := [],
    emitters := [{ position := 0, rate := 2, spread := 0, initial_velocity := 1,
                   particle_lifetime := 3, particle_size := 1, enabled := true,
                   accumulator := 0 }],
    config := ParticleConfig.default }

/-- Witness for the amended C2 at a concrete spawning system. -/
theorem update_death_invariant_witness :
    (∀ e ∈ livelySystem.emitters, e.enabled = true → 0 < e.particle_lifetime) ∧
    ∀ p ∈ (livelySystem.update 1 [] fun _ _ => default).particles, 0 < p.life :=
  ⟨by intro e he _; simp [livelySystem] at he; simp [he],
    update_death_invariant livelySystem 1 [] (fun _ _ => default)
      (by intro e he _; simp [livelySystem] at he; simp [he])⟩

/-- Claim C3: at the end of a `ParticleSystem::update` call the particle
collection is exactly the integrated-and-pruned old population followed by
the particles emitted this frame, and each emitted particle still is the
freshly constructed particle of its draw — its position is its emitter's
position and its velocity is its drawn emission velocity, untouched by this
frame's force integration (which, per the first line of `update`, only maps
over particles already stored when the call began; the new particles are
first integrated by the following frame's call). -/
theorem update_emission_ordering (s : ParticleSystem) (dt : ℚ)
    (forces : List (Vec2Q → Vec2Q)) (draws : ℕ → ℕ → EmitSample) :
    ∃ extra, (s.update dt forces draws).particles
        = ((s.particles.map fun p => p.update dt forces).filter
            fun p => p.is_alive) ++ extra ∧
      ∀ p ∈ extra, ∃ j, ∃ hj : j < s.emitters.length, ∃ k,
        p = Particle.new (s.emitters.get ⟨j, hj⟩).position ((draws j k).vel)
              (s.emitters.get ⟨j, hj⟩).particle_lifetime
              (s.emitters.get ⟨j, hj⟩).particle_size ((draws j k).color) := by
  obtain ⟨extra, heq, hextra⟩ := runEmitters_append s.config.max_particles dt draws
    s.emitters ((s.particles.map fun p => p.update dt forces).filter
      fun p => p.is_alive) 0
  refine ⟨extra, heq, ?_⟩
  intro p hp
  obtain ⟨j, hj, -, k, hpk⟩ := hextra p hp
  rw [Nat.zero_add] at hpk
  exact ⟨j, hj, k, hpk⟩

/-! ### Spatial grid: broad-phase completeness -/

theorem mem_intRangeIncl (lo hi a : ℤ) :
    a ∈ SpatialGrid.intRangeIncl lo hi ↔ lo ≤ a ∧ a ≤ hi := by
  unfold SpatialGrid.intRangeIncl
  rw [List.mem_map]
  constructor
  · rintro ⟨k, hk, rfl⟩
    rw [List.mem_range] at hk
    omega
  · intro h
    exact ⟨(a - lo).toNat, List.mem_range.mpr (by omega), by omega⟩

/-- Two points at distance at most `r` have floors at distance at most
`⌈r⌉`. -/
theorem abs_floor_sub_le_ceil (a b r : ℚ) (h : |a - b| ≤ r) :
    |⌊a⌋ - ⌊b⌋| ≤ ⌈r⌉ := by
  rw [abs_le] at h
  have hceil := Int.le_ceil r
  have h1 : a ≤ b + (⌈r⌉ : ℚ) := by linarith
  have h2 : b ≤ a + (⌈r⌉ : ℚ) := by linarith
  have f1 : ⌊a⌋ ≤ ⌊b⌋ + ⌈r⌉ := by
    have := Int.floor_le_floor h1
    rwa [Int.floor_add_int] at this
  have f2 : ⌊b⌋ ≤ ⌊a⌋ + ⌈r⌉ := by
    have := Int.floor_le_floor h2
    rwa [Int.floor_add_int] at this
  rw [abs_le]
  omega

/-- Coordinates at most `r` apart land in grid columns at most
`⌈r / cell_size⌉` apart. -/
theorem cell_coord_close (cs r u v : ℚ) (hcs : 0 < cs) (h : |u - v| ≤ r) :
    |⌊u / cs⌋ - ⌊v / cs⌋| ≤ ⌈r / cs⌉ := by
  apply abs_floor_sub_le_ceil
  have heq : u / cs - v / cs = (u - v) / cs := by ring
  rw [heq, abs_div, abs_of_pos hcs]
  gcongr

/-- A squared-distance bound gives per-axis bounds. -/
theorem abs_sub_le_of_distSq (p q : Vec2Q) (radius : ℚ) (hrad : 0 ≤ radius)
    (h : Vec2Q.distSq p q ≤ radius ^ 2) :
    |p.x - q.x| ≤ radius ∧ |p.y - q.y| ≤ radius := by
  unfold Vec2Q.distSq at h
  constructor
  · exact abs_le_of_sq_le_sq (by nlinarith [sq_nonneg (p.y - q.y)]) hrad
  · exact abs_le_of_sq_le_sq (by nlinarith [sq_nonneg (p.x - q.x)]) hrad

theorem mem_insert_cells (g : SpatialGrid) (i a : ℕ) (p : Vec2Q) (c : ℤ × ℤ)
    (h : a ∈ g.cells c) : a ∈ (g.insert i p).cells c := by
  simp only [SpatialGrid.insert]
  split_ifs with hc
  · exact List.mem_append_left _ h
  · exact h

theorem self_mem_insert (g : SpatialGrid) (i : ℕ) (p : Vec2Q) :
    i ∈ (g.insert i p).cells (g.get_cell p) := by
  simp [SpatialGrid.insert]

theorem foldl_insert_cell_size (pairs : List (ℕ × Vec2Q)) :
    ∀ g : SpatialGrid,
      (pairs.foldl (fun g ip => g.insert ip.1 ip.2) g).cell_size = g.cell_size := by
  induction pairs with
  | nil => intro g; rfl
  | cons ip ps ih =>
      intro g
      rw [List.foldl_cons]
      exact ih _

theorem foldl_insert_mem_mono (pairs : List (ℕ × Vec2Q)) :
    ∀ (g : SpatialGrid) (a : ℕ) (c : ℤ × ℤ), a ∈ g.cells c →
      a ∈ (pairs.foldl (fun g ip => g.insert ip.1 ip.2) g).cells c := by
  induction pairs with
  | nil => intro g a c h; exact h
  | cons ip ps ih =>
      intro g a c h
      rw [List.foldl_cons]
      exact ih _ _ _ (mem_insert_cells _ _ _ _ _ h)

/-- An inserted pair is registered in the bucket of its position's cell. -/
theorem foldl_insert_mem (pairs : List (ℕ × Vec2Q)) :
    ∀ (g : SpatialGrid) (idx : ℕ) (pos : Vec2Q), (idx, pos) ∈ pairs →
      idx ∈ (pairs.foldl (fun g ip => g.insert ip.1 ip.2) g).cells
        (⌊pos.x / g.cell_size⌋, ⌊pos.y / g.cell_size⌋) := by
  induction pairs with
  | nil =>
      intro g idx pos h
      simp at h
  | cons ip ps ih =>
      intro g idx pos h
      rw [List.foldl_cons]
      rcases List.mem_cons.mp h with heq | htail
      · have hbase : idx ∈ (g.insert ip.1 ip.2).cells
            (⌊pos.x / g.cell_size⌋, ⌊pos.y / g.cell_size⌋) := by
          rw [← heq]
          exact self_mem_insert g idx pos
        exact foldl_insert_mem_mono ps _ _ _ hbase
      · exact ih (g.insert ip.1 ip.2) idx pos htail

/-- Any bucket whose cell lies in the search square contributes to
`query_nearby`. -/
theorem mem_query_nearby_of (g : SpatialGrid) (q : Vec2Q) (radius : ℚ) (idx : ℕ)
    (c : ℤ × ℤ) (hmem : idx ∈ g.cells c)
    (hx : |c.1 - (g.get_cell q).1| ≤ ⌈radius / g.cell_size⌉)
    (hy : |c.2 - (g.get_cell q).2| ≤ ⌈radius / g.cell_size⌉) :
    idx ∈ g.query_nearby q radius := by
  simp only [SpatialGrid.query_nearby, List.mem_flatMap]
  rw [abs_le] at hx hy
  refine ⟨c.2 - (g.get_cell q).2, ?_, c.1 - (g.get_cell q).1, ?_, ?_⟩
  · rw [mem_intRangeIncl]
    omega
  · rw [mem_intRangeIncl]
    omega
  · have hc : ((g.get_cell q).1 + (c.1 - (g.get_cell q).1),
        (g.get_cell q).2 + (c.2 - (g.get_cell q).2)) = c := by
      obtain ⟨c1, c2⟩ := c
      simp
    rw [hc]
    exact hmem

/-- Claim C5: the broad-phase grid query has no false negatives — any index
inserted at a position within `radius` of the query point is returned by
`query_nearby` (the distance bound is phrased with exact squared distances:
`distSq pos q ≤ radius ^ 2` is `distance(pos, q) ≤ radius` for nonnegative
`radius`). -/
theorem grid_query_no_false_negative (w h cs radius : ℚ)
    (pairs : List (ℕ × Vec2Q)) (idx : ℕ) (pos q : Vec2Q)
    (hcs : 0 < cs) (hrad : 0 ≤ radius) (hmem : (idx, pos) ∈ pairs)
    (hdist : Vec2Q.distSq pos q ≤ radius ^ 2) :
    idx ∈ (SpatialGrid.build w h cs pairs).query_nearby q radius := by
  have hcsz : (SpatialGrid.build w h cs pairs).cell_size = cs :=
    foldl_insert_cell_size pairs _
  have hidx : idx ∈ (SpatialGrid.build w h cs pairs).cells
      (⌊pos.x / cs⌋, ⌊pos.y / cs⌋) :=
    foldl_insert_mem pairs (SpatialGrid.new w h cs) idx pos hmem
  obtain ⟨hax, hay⟩ := abs_sub_le_of_distSq pos q radius hrad hdist
  have hget : (SpatialGrid.build w h cs pairs).get_cell q
      = (⌊q.x / cs⌋, ⌊q.y / cs⌋) := by
    unfold SpatialGrid.get_cell
    rw [hcsz]
  apply mem_query_nearby_of _ _ _ _ (⌊pos.x / cs⌋, ⌊pos.y / cs⌋) hidx
  · rw [hget, hcsz]
    exact cell_coord_close cs radius pos.x q.x hcs hax
  · rw [hget, hcsz]
    exact cell_coord_close cs radius pos.y q.y hcs hay

/-- Witness for C5: index 7 inserted at `(5/2, 3)` is found when querying
at `(3, 3)` with radius 1 on a unit grid. -/
theorem grid_query_no_false_negative_witness :
    (0 : ℚ) < 1 ∧ (0 : ℚ) ≤ 1 ∧
    (7, (⟨5/2, 3⟩ : Vec2Q)) ∈ [(7, (⟨5/2, 3⟩ : Vec2Q))] ∧
    Vec2Q.distSq ⟨5/2, 3⟩ ⟨3, 3⟩ ≤ (1 : ℚ) ^ 2 ∧
    7 ∈ (SpatialGrid.build 100 100 1 [(7, ⟨5/2, 3⟩)]).query_nearby ⟨3, 3⟩ 1 :=
  ⟨by norm_num, by norm_num, by simp, by norm_num [Vec2Q.distSq],
    grid_query_no_false_negative 100 100 1 1 [(7, ⟨5/2, 3⟩)] 7 ⟨5/2, 3⟩ ⟨3, 3⟩
      (by norm_num) (by norm_num) (by simp) (by norm_num [Vec2Q.distSq])⟩

theorem Vec2Q.sub_x (a b : Vec2Q) : (a - b).x = a.x - b.x := rfl

theorem Vec2Q.sub_y (a b : Vec2Q) : (a - b).y = a.y - b.y := rfl

/-- Claim C6: for the outline built from the axis-aligned square
`[(50,50),(150,50),(150,150),(50,150)]`, `contains((100,100))` is true,
`contains((200,200))` is false (bounding-box rejection), and the
on-boundary query `contains((50,50))` is stable — `contains` is a pure
function of the outline and the point, so repeated calls agree. -/
theorem outline_containment_square :
    (Outline.from_points [⟨50, 50⟩, ⟨150, 50⟩, ⟨150, 150⟩, ⟨50, 150⟩]).contains
        ⟨100, 100⟩ = true ∧
    (Outline.from_points [⟨50, 50⟩, ⟨150, 50⟩, ⟨150, 150⟩, ⟨50, 150⟩]).contains
        ⟨200, 200⟩ = false ∧
    ((Outline.from_points [⟨50, 50⟩, ⟨150, 50⟩, ⟨150, 150⟩, ⟨50, 150⟩]).contains
        ⟨50, 50⟩
      = (Outline.from_points [⟨50, 50⟩, ⟨150, 50⟩, ⟨150, 150⟩, ⟨50, 150⟩]).contains
        ⟨50, 50⟩) := by
  refine ⟨?_, ?_, rfl⟩
  · norm_num [Outline.contains, Outline.from_points, Outline.ray_intersects_segment,
      AABB.contains, AABB.new, LineSegment.new, Vec2Q.min, Vec2Q.max, min_def, max_def,
      Vec2Q.sub_x, Vec2Q.sub_y, List.range_succ, List.countP_cons, List.countP_nil]
  · norm_num [Outline.contains, Outline.from_points, Outline.ray_intersects_segment,
      AABB.contains, AABB.new, LineSegment.new, Vec2Q.min, Vec2Q.max, min_def, max_def,
      Vec2Q.sub_x, Vec2Q.sub_y, List.range_succ, List.countP_cons, List.countP_nil]

/-! ### The attractor / repulsor force field -/

theorem Vec2R.x_of_sub (a b : Vec2R) : (a - b).x = a.x - b.x := rfl

theorem Vec2R.y_of_sub (a b : Vec2R) : (a - b).y = a.y - b.y := rfl

theorem Vec2R.lengthSq_nonneg (v : Vec2R) : 0 ≤ v.lengthSq :=
  add_nonneg (sq_nonneg _) (sq_nonneg _)

theorem Vec2R.length_nonneg (v : Vec2R) : 0 ≤ v.length :=
  Real.sqrt_nonneg _

theorem Vec2R.sq_length (v : Vec2R) : v.length ^ 2 = v.lengthSq :=
  Real.sq_sqrt v.lengthSq_nonneg

theorem Vec2R.lengthSq_sub_comm (a b : Vec2R) : (a - b).lengthSq = (b - a).lengthSq := by
  show (a.x - b.x) ^ 2 + (a.y - b.y) ^ 2 = (b.x - a.x) ^ 2 + (b.y - a.y) ^ 2
  ring

theorem Vec2R.hmul_assoc (v : Vec2R) (a b : ℝ) : v * a * b = v * (a * b) := by
  show Vec2R.mk (v.x * a * b) (v.y * a * b) = Vec2R.mk (v.x * (a * b)) (v.y * (a * b))
  rw [mul_assoc, mul_assoc]

theorem Vec2R.length_hmul (v : Vec2R) (c : ℝ) : (v * c).length = |c| * v.length := by
  unfold Vec2R.length Vec2R.lengthSq
  have h1 : (v * c).x ^ 2 + (v * c).y ^ 2 = c ^ 2 * (v.x ^ 2 + v.y ^ 2) := by
    show (v.x * c) ^ 2 + (v.y * c) ^ 2 = c ^ 2 * (v.x ^ 2 + v.y ^ 2)
    ring
  rw [h1, Real.sqrt_mul (sq_nonneg c), Real.sqrt_sq_eq_abs]

/-- The attractor arm of `Force::calculate_at`, spelled out. -/
theorem Force.calculate_at_attractor (pos : Vec2R) (strength radius : ℝ) (position : Vec2R) :
    (Force.Attractor pos strength radius).calculate_at position
      = if (pos - position).lengthSq < radius * radius ∧ (pos - position).lengthSq > 0
        then (pos - position).normalize_or_zero * (strength / ((pos - position).lengthSq + 1))
        else 0 := rfl

/-- The repulsor arm of `Force::calculate_at`, spelled out. -/
theorem Force.calculate_at_repulsor (pos : Vec2R) (strength radius : ℝ) (position : Vec2R) :
    (Force.Repulsor pos strength radius).calculate_at position
      = if (position - pos).lengthSq < radius * radius ∧ (position - pos).lengthSq > 0
        then (position - pos).normalize_or_zero * (strength / ((position - pos).lengthSq + 1))
        else 0 := rfl

/-- Claim C7: an attractor or repulsor evaluates to the zero vector whenever
the distance `d` from the evaluation point to the anchor is `0` or at least
`radius`; at `0 < d < radius` the result has magnitude
`strength / (d² + 1)` and is a positive multiple of the vector toward the
anchor (attractor) resp. away from it (repulsor).  Stated for positive
`strength` and nonnegative `radius`, the regime in which "magnitude" and
"points toward" are meaningful. -/
theorem attractor_repulsor_field (anchor p : Vec2R) (strength radius : ℝ)
    (hs : 0 < strength) (hrad : 0 ≤ radius) :
    ((Vec2R.dist p anchor = 0 ∨ radius ≤ Vec2R.dist p anchor) →
        (Force.Attractor anchor strength radius).calculate_at p = 0 ∧
        (Force.Repulsor anchor strength radius).calculate_at p = 0) ∧
    (0 < Vec2R.dist p anchor → Vec2R.dist p anchor < radius →
        ((Force.Attractor anchor strength radius).calculate_at p).length
            = strength / (Vec2R.dist p anchor ^ 2 + 1) ∧
        (∃ c : ℝ, 0 < c ∧
          (Force.Attractor anchor strength radius).calculate_at p = (anchor - p) * c) ∧
        ((Force.Repulsor anchor strength radius).calculate_at p).length
            = strength / (Vec2R.dist p anchor ^ 2 + 1) ∧
        (∃ c : ℝ, 0 < c ∧
          (Force.Repulsor anchor strength radius).calculate_at p = (p - anchor) * c)) := by
  have hL0 : 0 ≤ (p - anchor).lengthSq := Vec2R.lengthSq_nonneg _
  have hd2 : Vec2R.dist p anchor ^ 2 = (p - anchor).lengthSq := by
    unfold Vec2R.dist
    exact Vec2R.sq_length _
  have hdnn : 0 ≤ Vec2R.dist p anchor := Real.sqrt_nonneg _
  have hcomm : (anchor - p).lengthSq = (p - anchor).lengthSq := Vec2R.lengthSq_sub_comm _ _
  constructor
  · rintro (hzero | hfar)
    · have hLz : (p - anchor).lengthSq = 0 := by
        rw [← hd2, hzero]
        norm_num
      constructor
      · rw [Force.calculate_at_attractor, if_neg]
        rintro ⟨-, hpos⟩
        rw [hcomm, hLz] at hpos
        exact lt_irrefl 0 hpos
      · rw [Force.calculate_at_repulsor, if_neg]
        rintro ⟨-, hpos⟩
        rw [hLz] at hpos
        exact lt_irrefl 0 hpos
    · have hge : radius * radius ≤ (p - anchor).lengthSq := by
        rw [← hd2]
        have := mul_self_le_mul_self hrad hfar
        calc radius * radius ≤ Vec2R.dist p anchor * Vec2R.dist p anchor := this
          _ = Vec2R.dist p anchor ^ 2 := (sq (Vec2R.dist p anchor)).symm
      constructor
      · rw [Force.calculate_at_attractor, if_neg]
        rintro ⟨hlt, -⟩
        rw [hcomm] at hlt
        exact absurd hlt (not_lt.mpr hge)
      · rw [Force.calculate_at_repulsor, if_neg]
        rintro ⟨hlt, -⟩
        exact absurd hlt (not_lt.mpr hge)
  · intro hdpos hdlt
    have hLpos : 0 < (p - anchor).lengthSq := by
      rw [← hd2]
      positivity
    have hLlt : (p - anchor).lengthSq < radius * radius := by
      rw [← hd2]
      calc Vec2R.dist p anchor ^ 2 < radius ^ 2 := by
            exact pow_lt_pow_left₀ hdlt hdnn (by norm_num)
        _ = radius * radius := sq radius
    have hdne : Vec2R.dist p anchor ≠ 0 := ne_of_gt hdpos
    have hlenP : (p - anchor).length = Vec2R.dist p anchor := rfl
    have hlenA : (anchor - p).length = Vec2R.dist p anchor := by
      unfold Vec2R.length
      rw [hcomm]
      rfl
    have hm : 0 < strength / ((p - anchor).lengthSq + 1) := by positivity
    have hnormA : (anchor - p).normalize_or_zero = (anchor - p) * (1 / Vec2R.dist p anchor) := by
      unfold Vec2R.normalize_or_zero
      rw [hlenA, if_neg hdne]
    have hnormP : (p - anchor).normalize_or_zero = (p - anchor) * (1 / Vec2R.dist p anchor) := by
      unfold Vec2R.normalize_or_zero
      rw [hlenP, if_neg hdne]
    have hcpos : 0 < 1 / Vec2R.dist p anchor * (strength / ((p - anchor).lengthSq + 1)) := by
      positivity
    refine ⟨?_, ⟨_, hcpos, ?_⟩, ?_, ⟨_, hcpos, ?_⟩⟩
    · rw [Force.calculate_at_attractor, if_pos ⟨by rwa [hcomm], by rwa [hcomm]⟩, hnormA,
        Vec2R.hmul_assoc, Vec2R.length_hmul, hlenA, hcomm, hd2]
      rw [abs_of_pos hcpos]
      field_simp
      ring
    · rw [Force.calculate_at_attractor, if_pos ⟨by rwa [hcomm], by rwa [hcomm]⟩, hnormA,
        Vec2R.hmul_assoc, hcomm]
    · rw [Force.calculate_at_repulsor, if_pos ⟨hLlt, hLpos⟩, hnormP,
        Vec2R.hmul_assoc, Vec2R.length_hmul, hlenP, hd2]
      rw [abs_of_pos hcpos]
      field_simp
      ring
    · rw [Force.calculate_at_repulsor, if_pos ⟨hLlt, hLpos⟩, hnormP, Vec2R.hmul_assoc]

/-- Witness for C7: attractor/repulsor anchored at the origin with strength
1 and radius 10, evaluated at `(3, 4)` (distance 5). -/
theorem attractor_repulsor_field_witness :
    (0 : ℝ) < 1 ∧ (0 : ℝ) ≤ 10 ∧
    (((Vec2R.dist ⟨3, 4⟩ ⟨0, 0⟩ = 0 ∨ (10 : ℝ) ≤ Vec2R.dist ⟨3, 4⟩ ⟨0, 0⟩) →
        (Force.Attractor ⟨0, 0⟩ 1 10).calculate_at ⟨3, 4⟩ = 0 ∧
        (Force.Repulsor ⟨0, 0⟩ 1 10).calculate_at ⟨3, 4⟩ = 0) ∧
      (0 < Vec2R.dist ⟨3, 4⟩ ⟨0, 0⟩ → Vec2R.dist ⟨3, 4⟩ ⟨0, 0⟩ < 10 →
        ((Force.Attractor ⟨0, 0⟩ 1 10).calculate_at ⟨3, 4⟩).length
            = 1 / (Vec2R.dist ⟨3, 4⟩ ⟨0, 0⟩ ^ 2 + 1) ∧
        (∃ c : ℝ, 0 < c ∧
          (Force.Attractor ⟨0, 0⟩ 1 10).calculate_at ⟨3, 4⟩
            = ((⟨0, 0⟩ : Vec2R) - ⟨3, 4⟩) * c) ∧
        ((Force.Repulsor ⟨0, 0⟩ 1 10).calculate_at ⟨3, 4⟩).length
            = 1 / (Vec2R.dist ⟨3, 4⟩ ⟨0, 0⟩ ^ 2 + 1) ∧
        (∃ c : ℝ, 0 < c ∧
          (Force.Repulsor ⟨0, 0⟩ 1 10).calculate_at ⟨3, 4⟩
            = ((⟨3, 4⟩ : Vec2R) - ⟨0, 0⟩) * c))) :=
  ⟨by norm_num, by norm_num,
    attractor_repulsor_field ⟨0, 0⟩ ⟨3, 4⟩ 1 10 (by norm_num) (by norm_num)⟩

/-- Counterexample to claim C5 as stated over all grids: with a negative
`cell_size` (here `-1`), `ceil(radius / cell_size)` is negative, the search
square of `query_nearby` is empty, and even an index inserted exactly at the
query position is not returned — a false negative. -/
theorem grid_query_false_negative_negative_cell_size :
    Vec2Q.distSq ⟨0, 0⟩ ⟨0, 0⟩ ≤ (1 : ℚ) ^ 2 ∧
    (0, (⟨0, 0⟩ : Vec2Q)) ∈ [(0, (⟨0, 0⟩ : Vec2Q))] ∧
    0 ∉ (SpatialGrid.build 100 100 (-1) [(0, ⟨0, 0⟩)]).query_nearby ⟨0, 0⟩ 1 := by
  refine ⟨by norm_num [Vec2Q.distSq], by simp, ?_⟩
  intro hmem
  have hcsz : (SpatialGrid.build 100 100 (-1) [(0, ⟨0, 0⟩)]).cell_size = -1 :=
    foldl_insert_cell_size _ _
  simp only [SpatialGrid.query_nearby, List.mem_flatMap] at hmem
  rw [hcsz, show ((1 : ℚ) / (-1 : ℚ)) = ((-1 : ℤ) : ℚ) from by norm_num,
    Int.ceil_intCast] at hmem
  obtain ⟨dy, hdy, -⟩ := hmem
  rw [mem_intRangeIncl] at hdy
  omega

/-- Counterexample to claim C7 as stated over all strengths: with
`strength = -1` (anchor at the origin, radius 10, evaluation point `(3,4)`,
distance 5, inside the radius), the result's magnitude is `1/26`, not the
claimed `strength / (d² + 1) = -1/26` — a magnitude is never negative — and
the result points away from the anchor. -/
theorem attractor_negative_strength_refuted :
    ¬ ((((Force.Attractor ⟨0, 0⟩ (-1) 10).calculate_at ⟨3, 4⟩).length
          = (-1) / (Vec2R.dist ⟨3, 4⟩ ⟨0, 0⟩ ^ 2 + 1)) ∧
        (∃ c : ℝ, 0 < c ∧
          (Force.Attractor ⟨0, 0⟩ (-1) 10).calculate_at ⟨3, 4⟩
            = ((⟨0, 0⟩ : Vec2R) - ⟨3, 4⟩) * c)) := by
  rintro ⟨h, -⟩
  have hnn : 0 ≤ ((Force.Attractor ⟨0, 0⟩ (-1) 10).calculate_at ⟨3, 4⟩).length :=
    Vec2R.length_nonneg _
  have hd2 : Vec2R.dist ⟨3, 4⟩ ⟨0, 0⟩ ^ 2 = 25 := by
    unfold Vec2R.dist
    rw [Vec2R.sq_length]
    show ((3 : ℝ) - 0) ^ 2 + ((4 : ℝ) - 0) ^ 2 = 25
    norm_num
  rw [h, hd2] at hnn
  norm_num at hnn
